import Mathlib

/-!
Verification of the bookmark flattener & selector of
`src/js/core/background.js` (keep-or-delete-bookmarks).

The JavaScript module keeps three pieces of mutable state:
`collectedBookmarks` (an array of flat bookmark records),
`additionalData` (a map from bookmark id to `{ path }`) and
`currentBookmark` (the index most recently presented, initially `null`).
We embed the state as `KState` and each operation as an explicit state
transformer.  JavaScript truthiness of `bookmark.title` is modelled as
`title ≠ ""` (both `undefined` and `""` are falsy); the optional
`children` array is `Option (List BNode)` (note that in JavaScript an
*empty* array is still truthy, so `some []` takes the children branch).
`Math.floor(Math.random() * length)` draws are modelled as an explicit
list of natural numbers, each subject to `validDraw length`; a pick loop
that exhausts its draw list without accepting is a run of the
`while` loop that has not terminated yet.  Operations that would throw a
`TypeError` (destructuring `undefined` in `collectBookmark`) return
`none`.
-/

set_option autoImplicit false

namespace KODB

/-- The `type` discriminator of a bookmark tree node. -/
inductive BMType where
  | bookmark
  | folder
  | separator
deriving DecidableEq, Repr

/-- A bookmark tree node as supplied by the host
(`bookmarks.BookmarkTreeNode`): id, title, url, type and an optional
list of children.  `children = none` models an absent `children`
property; `children = some l` models a present (possibly empty) array. -/
inductive BNode where
  | node (id : String) (title : String) (url : String) (ty : BMType)
      (children : Option (List BNode)) : BNode
deriving Repr

def BNode.id : BNode → String
  | .node i _ _ _ _ => i

def BNode.title : BNode → String
  | .node _ t _ _ _ => t

def BNode.url : BNode → String
  | .node _ _ u _ _ => u

def BNode.ty : BNode → BMType
  | .node _ _ _ ty _ => ty

def BNode.children : BNode → Option (List BNode)
  | .node _ _ _ _ c => c

/-- A flat, UI-ready bookmark record `{ id, title, url, path }` as pushed
onto `collectedBookmarks` by `collectBookmark`. -/
structure FlatBookmark where
  id : String
  title : String
  url : String
  path : List String
deriving DecidableEq, Repr

/-- `additionalData`: a map from bookmark id to its recorded path,
modelled as an association list (JavaScript object, keyed by id). -/
abbrev AData : Type := List (String × List String)

/-- Property read `additionalData[id]` (as an object with a `path`
field; every entry the code ever creates has its `path` set). -/
def lookupAD : AData → String → Option (List String)
  | [], _ => none
  | (k, v) :: rest, i => if k = i then some v else lookupAD rest i

/-- The effect of `additionalData[id] = {}` (if missing) followed by
`additionalData[id].path = p`: overwrite the entry if the key is
present, otherwise add it. -/
def setPath : AData → String → List String → AData
  | [], i, p => [(i, p)]
  | (k, v) :: rest, i, p =>
      if k = i then (k, p) :: rest else (k, v) :: setPath rest i p

/-- The effect of `delete additionalData[id]`: drop the entry for the
key (a no-op when the key is absent). -/
def eraseAD : AData → String → AData
  | [], _ => []
  | (k, v) :: rest, i =>
      if k = i then eraseAD rest i else (k, v) :: eraseAD rest i

/-- The module-level mutable state of `kodb`. -/
structure KState where
  collectedBookmarks : List FlatBookmark
  additionalData : AData
  /-- `currentBookmark`: `none` is the initial `null`; after the first
  presentation it holds the *index* chosen by `showNextBookmark`. -/
  currentBookmark : Option Nat
deriving DecidableEq

/-- The initial module state: empty list, empty map, `null` current. -/
def initState : KState :=
  { collectedBookmarks := [], additionalData := [], currentBookmark := none }

mutual
/-- `kodb.calculateBookmarkPaths(bookmark, path)`: push the title if
truthy, recurse over present children (else record
`path.slice(0, -1)` for this leaf), then `path.pop()` unconditionally.
Returns the updated `additionalData` and the mutated accumulator. -/
def calculateBookmarkPaths : BNode → AData → List String → AData × List String
  | .node i t _ _ children, ad, path =>
    let path1 := if t ≠ "" then path ++ [t] else path
    match children with
    | some cs =>
        let r := calculateBookmarkPathsList cs ad path1
        (r.1, r.2.dropLast)
    | none => (setPath ad i path1.dropLast, path1.dropLast)

/-- The `for (const child of bookmark.children)` loop of
`calculateBookmarkPaths`, threading the map and the shared accumulator. -/
def calculateBookmarkPathsList : List BNode → AData → List String → AData × List String
  | [], ad, path => (ad, path)
  | c :: cs, ad, path =>
    let r := calculateBookmarkPaths c ad path
    calculateBookmarkPathsList cs r.1 r.2
end

mutual
/-- `kodb.collectBookmark(bookmark)` threading the accumulated
`collectedBookmarks`.  For a node of type `"bookmark"` the code
destructures `kodb.additionalData[id]`; if that entry is missing this
throws a `TypeError`, modelled as `none`. -/
def collectBookmark (ad : AData) : BNode → List FlatBookmark → Option (List FlatBookmark)
  | .node i t u ty children, acc =>
    let step : Option (List FlatBookmark) :=
      if ty = BMType.bookmark then
        match lookupAD ad i with
        | some p => some (acc ++ [⟨i, t, u, p⟩])
        | none => none
      else
        some acc
    match step with
    | none => none
    | some acc1 =>
      match children with
      | some cs => collectBookmarkList ad cs acc1
      | none => some acc1

/-- The `for (const child of bookmark.children)` loop of
`collectBookmark`. -/
def collectBookmarkList (ad : AData) : List BNode → List FlatBookmark → Option (List FlatBookmark)
  | [], acc => some acc
  | c :: cs, acc =>
    match collectBookmark ad c acc with
    | none => none
    | some acc1 => collectBookmarkList ad cs acc1
end

/-- `kodb.collectAllBookmarks()` applied to the fetched tree root:
reset `collectedBookmarks` to `[]`, run `calculateBookmarkPaths(root, [])`
(which updates `additionalData` in place), then `collectBookmark(root)`.
`currentBookmark` is not touched.  A `TypeError` inside
`collectBookmark` aborts the run (`none`). -/
def collectAllBookmarks (s : KState) (root : BNode) : Option KState :=
  match collectBookmark (calculateBookmarkPaths root s.additionalData []).1 root [] with
  | some l =>
      some { collectedBookmarks := l,
             additionalData := (calculateBookmarkPaths root s.additionalData []).1,
             currentBookmark := s.currentBookmark }
  | none => none

/-- `kodb.getIndexById(id)`: `Array.prototype.findIndex`, `-1` when no
entry matches. -/
def getIndexById (l : List FlatBookmark) (i : String) : Int :=
  match l.findIdx? (fun b => b.id = i) with
  | some n => (n : Int)
  | none => -1

/-- `Array.prototype.splice(start, 1)`: a negative `start` counts from
the end (clamped at 0), and one element is removed at the resulting
position if it exists. -/
def spliceOne (l : List FlatBookmark) (start : Int) : List FlatBookmark :=
  let b : Nat := if start < 0 then ((l.length : Int) + start).toNat else start.toNat
  l.take b ++ l.drop (b + 1)

/-- `kodb.removeFromCollectedBookmarks(id)`:
`collectedBookmarks.splice(getIndexById(id), 1)` followed by
`delete additionalData[id]`. -/
def removeFromCollectedBookmarks (s : KState) (i : String) : KState :=
  { s with
    collectedBookmarks :=
      spliceOne s.collectedBookmarks (getIndexById s.collectedBookmarks i),
    additionalData := eraseAD s.additionalData i }

/-- A value `Math.floor(Math.random() * length)` can take: `0` when
`length = 0` (`Math.random() * 0 = 0`), otherwise any index below
`length`. -/
def validDraw (length d : Nat) : Prop := d < max length 1

instance (length d : Nat) : Decidable (validDraw length d) := by
  unfold validDraw; infer_instance

/-- The `while (nextBookmark === kodb.currentBookmark)` loop of
`showNextBookmark`: `nextBookmark` starts equal to `currentBookmark`,
so at least one draw happens; the loop exits at the first draw that is
not `===` the current value (a number is never `===` `null`).  `none`
means the supplied draws were exhausted with the loop still running. -/
def pickLoop (current : Option Nat) : List Nat → Option Nat
  | [] => none
  | d :: ds => if some d = current then pickLoop current ds else some d

/-- `kodb.showNextBookmark()` under an explicit list of random draws:
run the rejection loop against `currentBookmark`, store the accepted
index, and send `collectedBookmarks[index]` to the UI (the payload is
`none` i.e. `undefined` when the index is out of range).  The result is
the new state and the presented payload; `none` when the loop did not
terminate within the given draws. -/
def showNextBookmark (s : KState) (draws : List Nat) :
    Option (KState × Option FlatBookmark) :=
  match pickLoop s.currentBookmark draws with
  | none => none
  | some idx =>
      some ({ s with currentBookmark := some idx }, s.collectedBookmarks[idx]?)

mutual
/-- All nodes of a tree (the node itself and, when the `children`
property is present, the nodes of every child), used to state
hypotheses that quantify over the nodes of the input tree. -/
def nodesOf : BNode → List BNode
  | .node i t u ty children =>
    BNode.node i t u ty children ::
      (match children with
       | some cs => nodesOfList cs
       | none => [])

/-- Nodes of a list of trees, in order. -/
def nodesOfList : List BNode → List BNode
  | [] => []
  | c :: cs => nodesOf c ++ nodesOfList cs
end

/-- A node is a leaf when its `children` property is absent (this is
what the code's `if (bookmark.children)` tests, up to the `some []`
corner noted at the top of the file). -/
def isLeaf (n : BNode) : Bool := n.children.isNone

/-- The ids of all nodes of a tree. -/
def nodeIds (t : BNode) : List String := (nodesOf t).map BNode.id

/-- The number of leaf nodes of type `"bookmark"` in a tree. -/
def countLeafBookmarks (t : BNode) : Nat :=
  ((nodesOf t).filter (fun n => decide (n.ty = BMType.bookmark) && isLeaf n)).length

mutual
/-- Specification-side definition, following the spec's words: the pairs
`(id, path)` for every leaf of the tree, where `path` is the ordered
sequence of titles of the leaf's strict ancestors excluding the tree
root.  `anc` is the title sequence accumulated from the root (root's
own title excluded by starting the accumulation below it). -/
def specLeafPaths : BNode → List String → List (String × List String)
  | .node i t _ _ children, anc =>
    match children with
    | none => [(i, anc)]
    | some cs => specLeafPathsList cs (anc ++ [t])

/-- `specLeafPaths` over a list of siblings, in order. -/
def specLeafPathsList : List BNode → List String → List (String × List String)
  | [], _ => []
  | c :: cs, anc => specLeafPaths c anc ++ specLeafPathsList cs anc
end

/-- Specification-side definition: the ancestor-title paths of all
leaves of a tree, the root's title excluded from every path. -/
def specAncestorPaths (t : BNode) : List (String × List String) :=
  match t.children with
  | none => [(t.id, [])]
  | some cs => specLeafPathsList cs []

/-- Insert a list of `(id, path)` entries into the map, left to right,
with the overwrite-or-add semantics of `setPath`. -/
def setPaths (ad : AData) (entries : List (String × List String)) : AData :=
  entries.foldl (fun a e => setPath a e.1 e.2) ad

/-- The non-root nodes of a tree. -/
def descendants (t : BNode) : List BNode :=
  match t.children with
  | some cs => nodesOfList cs
  | none => []

/-- The ids of the leaf nodes of a tree. -/
def leafIds (t : BNode) : List String :=
  ((nodesOf t).filter isLeaf).map BNode.id

/-! ### Basic lemmas about the id-keyed map -/

theorem lookupAD_setPath_self (ad : AData) (i : String) (p : List String) :
    lookupAD (setPath ad i p) i = some p := by
  induction ad with
  | nil => simp [setPath, lookupAD]
  | cons e rest ih =>
    obtain ⟨k, v⟩ := e
    by_cases h : k = i <;> simp [setPath, lookupAD, h, ih]

theorem lookupAD_setPath_other (ad : AData) (i j : String) (p : List String)
    (h : j ≠ i) : lookupAD (setPath ad i p) j = lookupAD ad j := by
  induction ad with
  | nil => simp [setPath, lookupAD, Ne.symm h]
  | cons e rest ih =>
    obtain ⟨k, v⟩ := e
    by_cases hk : k = i
    · have hkj : k ≠ j := by rw [hk]; exact Ne.symm h
      simp [setPath, lookupAD, hk, hkj, Ne.symm h]
    · by_cases hj : k = j <;> simp [setPath, lookupAD, hk, hj, ih, h, Ne.symm h]

theorem lookupAD_eraseAD_self (ad : AData) (i : String) :
    lookupAD (eraseAD ad i) i = none := by
  induction ad with
  | nil => simp [eraseAD, lookupAD]
  | cons e rest ih =>
    obtain ⟨k, v⟩ := e
    by_cases h : k = i <;> simp [eraseAD, lookupAD, h, ih]

theorem lookupAD_eraseAD_other (ad : AData) (i j : String) (h : j ≠ i) :
    lookupAD (eraseAD ad i) j = lookupAD ad j := by
  induction ad with
  | nil => simp [eraseAD, lookupAD]
  | cons e rest ih =>
    obtain ⟨k, v⟩ := e
    by_cases hk : k = i
    · have hkj : k ≠ j := by rw [hk]; exact Ne.symm h
      simp [eraseAD, lookupAD, hk, hkj, ih, Ne.symm h]
    · by_cases hj : k = j <;> simp [eraseAD, lookupAD, hk, hj, ih, h, Ne.symm h]

theorem lookupAD_setPaths_notMem (ad : AData) (entries : List (String × List String))
    (i : String) (h : i ∉ entries.map Prod.fst) :
    lookupAD (setPaths ad entries) i = lookupAD ad i := by
  induction entries generalizing ad with
  | nil => rfl
  | cons e rest ih =>
    simp only [List.map_cons, List.mem_cons] at h
    push_neg at h
    simp only [setPaths, List.foldl_cons]
    rw [show List.foldl (fun a e => setPath a e.1 e.2) (setPath ad e.1 e.2) rest
          = setPaths (setPath ad e.1 e.2) rest from rfl]
    rw [ih _ h.2, lookupAD_setPath_other _ _ _ _ (fun hh => h.1 hh)]

theorem lookupAD_append_left_none (ad bd : AData) (j : String)
    (h : lookupAD ad j = none) : lookupAD (ad ++ bd) j = lookupAD bd j := by
  induction ad with
  | nil => rfl
  | cons e rest ih =>
    obtain ⟨k, v⟩ := e
    by_cases hk : k = j
    · simp [lookupAD, hk] at h
    · simp [lookupAD, hk] at h ⊢
      exact ih h

theorem setPath_fresh_append (ad : AData) (k : String) (v : List String)
    (hk : lookupAD ad k = none) : setPath ad k v = ad ++ [(k, v)] := by
  induction ad with
  | nil => simp [setPath]
  | cons f fs ihf =>
    obtain ⟨k1, v1⟩ := f
    by_cases h1 : k1 = k
    · subst h1; simp [lookupAD] at hk
    · simp [lookupAD, h1] at hk
      simp [setPath, h1, ihf hk]

theorem setPaths_disjoint_append (ad : AData) (entries : List (String × List String))
    (hnd : (entries.map Prod.fst).Nodup)
    (hd : ∀ k ∈ entries.map Prod.fst, lookupAD ad k = none) :
    setPaths ad entries = ad ++ entries := by
  induction entries generalizing ad with
  | nil => simp [setPaths]
  | cons e rest ih =>
    obtain ⟨k, v⟩ := e
    have hk : lookupAD ad k = none := hd k (by simp)
    have hset : setPath ad k v = ad ++ [(k, v)] := setPath_fresh_append ad k v hk
    simp only [List.map_cons, List.nodup_cons] at hnd
    simp only [setPaths, List.foldl_cons]
    rw [show List.foldl (fun a e => setPath a e.1 e.2) (setPath ad (k, v).1 (k, v).2) rest
          = setPaths (setPath ad k v) rest from rfl]
    have hd2 : ∀ j ∈ rest.map Prod.fst, lookupAD (setPath ad k v) j = none := by
      intro j hj
      have hjk : j ≠ k := fun hh => hnd.1 (hh ▸ hj)
      rw [hset, lookupAD_append_left_none _ _ _ (hd j (by simp [hj]))]
      simp [lookupAD, Ne.symm hjk]
    rw [ih (setPath ad k v) hnd.2 hd2, hset]
    simp

theorem lookupAD_setPath_isSome (ad : AData) (k i : String) (v : List String)
    (h : (lookupAD ad i).isSome) : (lookupAD (setPath ad k v) i).isSome := by
  by_cases hk : i = k
  · subst hk; simp [lookupAD_setPath_self]
  · rwa [lookupAD_setPath_other _ _ _ _ hk]

/-- Looking a key up in an association list finds one of its entries. -/
theorem lookupAD_mem (ad : AData) (i : String) (p : List String)
    (h : lookupAD ad i = some p) : (i, p) ∈ ad := by
  induction ad with
  | nil => simp [lookupAD] at h
  | cons e rest ih =>
    obtain ⟨k, v⟩ := e
    by_cases hk : k = i
    · subst hk
      simp [lookupAD] at h
      simp [h]
    · simp [lookupAD, hk] at h
      simp [ih h]

/-- The ids of the leaf nodes of a list of trees. -/
def leafIdsList (cs : List BNode) : List String :=
  ((nodesOfList cs).filter isLeaf).map BNode.id

/-- The number of nodes of type `"bookmark"` (leaf or not) in a tree. -/
def countBookmarks (t : BNode) : Nat :=
  ((nodesOf t).filter (fun n => decide (n.ty = BMType.bookmark))).length

/-- The number of nodes of type `"bookmark"` in a list of trees. -/
def countBookmarksList (cs : List BNode) : Nat :=
  ((nodesOfList cs).filter (fun n => decide (n.ty = BMType.bookmark))).length

/-! ### Unfolding lemmas for the mutual definitions -/

@[simp] theorem nodesOf_none (i t u : String) (ty : BMType) :
    nodesOf (.node i t u ty none) = [.node i t u ty none] := rfl

@[simp] theorem nodesOf_some (i t u : String) (ty : BMType) (cs : List BNode) :
    nodesOf (.node i t u ty (some cs)) = .node i t u ty (some cs) :: nodesOfList cs := rfl

@[simp] theorem nodesOfList_nil : nodesOfList [] = [] := rfl

@[simp] theorem nodesOfList_cons (c : BNode) (cs : List BNode) :
    nodesOfList (c :: cs) = nodesOf c ++ nodesOfList cs := rfl

@[simp] theorem specLeafPaths_none (i t u : String) (ty : BMType) (anc : List String) :
    specLeafPaths (.node i t u ty none) anc = [(i, anc)] := rfl

@[simp] theorem specLeafPaths_some (i t u : String) (ty : BMType) (cs : List BNode)
    (anc : List String) :
    specLeafPaths (.node i t u ty (some cs)) anc = specLeafPathsList cs (anc ++ [t]) := rfl

@[simp] theorem specLeafPathsList_nil (anc : List String) :
    specLeafPathsList [] anc = [] := rfl

@[simp] theorem specLeafPathsList_cons (c : BNode) (cs : List BNode) (anc : List String) :
    specLeafPathsList (c :: cs) anc = specLeafPaths c anc ++ specLeafPathsList cs anc := rfl

theorem calculateBookmarkPaths_leaf (i t u : String) (ty : BMType)
    (ad : AData) (path : List String) :
    calculateBookmarkPaths (.node i t u ty none) ad path =
      (setPath ad i (if t ≠ "" then path ++ [t] else path).dropLast,
       (if t ≠ "" then path ++ [t] else path).dropLast) := rfl

theorem calculateBookmarkPaths_branch (i t u : String) (ty : BMType) (cs : List BNode)
    (ad : AData) (path : List String) :
    calculateBookmarkPaths (.node i t u ty (some cs)) ad path =
      ((calculateBookmarkPathsList cs ad (if t ≠ "" then path ++ [t] else path)).1,
       (calculateBookmarkPathsList cs ad (if t ≠ "" then path ++ [t] else path)).2.dropLast) := rfl

@[simp] theorem calculateBookmarkPathsList_nil (ad : AData) (path : List String) :
    calculateBookmarkPathsList [] ad path = (ad, path) := rfl

@[simp] theorem calculateBookmarkPathsList_cons (c : BNode) (cs : List BNode)
    (ad : AData) (path : List String) :
    calculateBookmarkPathsList (c :: cs) ad path =
      calculateBookmarkPathsList cs (calculateBookmarkPaths c ad path).1
        (calculateBookmarkPaths c ad path).2 := rfl

@[simp] theorem setPaths_nil (ad : AData) : setPaths ad [] = ad := rfl

@[simp] theorem setPaths_cons (ad : AData) (e : String × List String)
    (entries : List (String × List String)) :
    setPaths ad (e :: entries) = setPaths (setPath ad e.1 e.2) entries := rfl

theorem setPaths_append (ad : AData) (a b : List (String × List String)) :
    setPaths ad (a ++ b) = setPaths (setPaths ad a) b := by
  simp [setPaths, List.foldl_append]

/-! ### `calculateBookmarkPaths` on trees whose nodes all have titles -/

mutual
/-- On a subtree all of whose nodes have nonempty titles,
`calculateBookmarkPaths` restores the path accumulator and records
exactly the specification paths of the subtree's leaves (relative to
the incoming accumulator). -/
theorem calculateBookmarkPaths_titled (t : BNode) (ad : AData) (path : List String)
    (h : ∀ n ∈ nodesOf t, n.title ≠ "") :
    calculateBookmarkPaths t ad path = (setPaths ad (specLeafPaths t path), path) := by
  cases t with
  | node i tt u ty children =>
    have htt : tt ≠ "" := h (.node i tt u ty children) (by cases children <;> simp)
    cases children with
    | none =>
        rw [calculateBookmarkPaths_leaf]
        simp [htt, List.dropLast_concat]
    | some cs =>
        have hcs : ∀ n ∈ nodesOfList cs, n.title ≠ "" := by
          intro n hn
          exact h n (by simp [hn])
        rw [calculateBookmarkPaths_branch, if_pos htt,
          calculateBookmarkPathsList_titled cs ad (path ++ [tt]) hcs]
        simp [List.dropLast_concat, htt]
termination_by sizeOf t

theorem calculateBookmarkPathsList_titled (cs : List BNode) (ad : AData) (path : List String)
    (h : ∀ n ∈ nodesOfList cs, n.title ≠ "") :
    calculateBookmarkPathsList cs ad path =
      (setPaths ad (specLeafPathsList cs path), path) := by
  cases cs with
  | nil => simp
  | cons c cs' =>
    have hc : ∀ n ∈ nodesOf c, n.title ≠ "" := fun n hn => h n (by simp [hn])
    have hcs' : ∀ n ∈ nodesOfList cs', n.title ≠ "" := fun n hn => h n (by simp [hn])
    rw [calculateBookmarkPathsList_cons, calculateBookmarkPaths_titled c ad path hc,
      calculateBookmarkPathsList_titled cs' (setPaths ad (specLeafPaths c path)) path hcs']
    simp [setPaths_append]
termination_by sizeOf cs
end

/-- The full collection pass on a tree whose root has an empty (falsy)
title and whose other nodes all have nonempty titles: the resulting
map is the old map overwritten with the specification paths. -/
theorem calculateBookmarkPaths_root (t : BNode) (ad : AData)
    (hroot : t.title = "")
    (h : ∀ n ∈ descendants t, n.title ≠ "") :
    (calculateBookmarkPaths t ad []).1 = setPaths ad (specAncestorPaths t) := by
  cases t with
  | node i tt u ty children =>
    have htt : ¬tt ≠ "" := by simpa using hroot
    cases children with
    | none =>
        rw [calculateBookmarkPaths_leaf, if_neg htt]
        simp [specAncestorPaths, BNode.children, BNode.id]
    | some cs =>
        have hcs : ∀ n ∈ nodesOfList cs, n.title ≠ "" := by
          simpa [descendants, BNode.children] using h
        rw [calculateBookmarkPaths_branch, if_neg htt,
          calculateBookmarkPathsList_titled cs ad [] hcs]
        simp [specAncestorPaths, BNode.children]

/-! ### Keys of the specification paths -/

mutual
theorem specLeafPaths_keys (t : BNode) (anc : List String) :
    (specLeafPaths t anc).map Prod.fst = leafIds t := by
  cases t with
  | node i tt u ty children =>
    cases children with
    | none => simp [leafIds, isLeaf, BNode.children, BNode.id]
    | some cs =>
        rw [specLeafPaths_some, specLeafPathsList_keys cs (anc ++ [tt])]
        simp [leafIds, leafIdsList, isLeaf, BNode.children]
termination_by sizeOf t

theorem specLeafPathsList_keys (cs : List BNode) (anc : List String) :
    (specLeafPathsList cs anc).map Prod.fst = leafIdsList cs := by
  cases cs with
  | nil => simp [leafIdsList]
  | cons c cs' =>
    rw [specLeafPathsList_cons, List.map_append, specLeafPaths_keys c anc,
      specLeafPathsList_keys cs' anc]
    simp [leafIds, leafIdsList]
termination_by sizeOf cs
end

theorem specAncestorPaths_keys (t : BNode) :
    (specAncestorPaths t).map Prod.fst = leafIds t := by
  cases t with
  | node i tt u ty children =>
    cases children with
    | none => simp [specAncestorPaths, leafIds, isLeaf, BNode.children, BNode.id]
    | some cs =>
        rw [show specAncestorPaths (.node i tt u ty (some cs))
              = specLeafPathsList cs [] from rfl, specLeafPathsList_keys cs []]
        simp [leafIds, leafIdsList, isLeaf, BNode.children]

/-- Leaf ids form a subsequence of all node ids, so distinct node ids
give distinct leaf ids. -/
theorem leafIds_nodup (t : BNode) (h : (nodeIds t).Nodup) : (leafIds t).Nodup := by
  have hsub : List.Sublist (leafIds t) (nodeIds t) :=
    ((nodesOf t).filter_sublist).map BNode.id
  exact h.sublist hsub

/-! ### The traversal only ever adds or overwrites map entries -/

mutual
theorem calculateBookmarkPaths_isSome_mono (t : BNode) (ad : AData) (path : List String)
    (i : String) (h : (lookupAD ad i).isSome) :
    (lookupAD (calculateBookmarkPaths t ad path).1 i).isSome := by
  cases t with
  | node ni tt u ty children =>
    cases children with
    | none =>
        rw [calculateBookmarkPaths_leaf]
        exact lookupAD_setPath_isSome _ _ _ _ h
    | some cs =>
        rw [calculateBookmarkPaths_branch]
        exact calculateBookmarkPathsList_isSome_mono cs ad _ i h
termination_by sizeOf t

theorem calculateBookmarkPathsList_isSome_mono (cs : List BNode) (ad : AData)
    (path : List String) (i : String) (h : (lookupAD ad i).isSome) :
    (lookupAD (calculateBookmarkPathsList cs ad path).1 i).isSome := by
  cases cs with
  | nil => simpa
  | cons c cs' =>
    rw [calculateBookmarkPathsList_cons]
    exact calculateBookmarkPathsList_isSome_mono cs' _ _ i
      (calculateBookmarkPaths_isSome_mono c ad path i h)
termination_by sizeOf cs
end

/-! ### Every leaf of the walked tree ends up with a map entry -/

mutual
theorem calculateBookmarkPaths_leaf_isSome (t : BNode) (ad : AData) (path : List String)
    (n : BNode) (hn : n ∈ nodesOf t) (hleaf : isLeaf n = true) :
    (lookupAD (calculateBookmarkPaths t ad path).1 n.id).isSome := by
  cases t with
  | node ni tt u ty children =>
    cases children with
    | none =>
        have : n = BNode.node ni tt u ty none := by simpa using hn
        subst this
        rw [calculateBookmarkPaths_leaf]
        simp [BNode.id, lookupAD_setPath_self]
    | some cs =>
        rw [nodesOf_some, List.mem_cons] at hn
        rcases hn with hn | hn
        · exfalso
          subst hn
          simp [isLeaf, BNode.children] at hleaf
        · rw [calculateBookmarkPaths_branch]
          exact calculateBookmarkPathsList_leaf_isSome cs ad _ n hn hleaf
termination_by sizeOf t

theorem calculateBookmarkPathsList_leaf_isSome (cs : List BNode) (ad : AData)
    (path : List String) (n : BNode) (hn : n ∈ nodesOfList cs) (hleaf : isLeaf n = true) :
    (lookupAD (calculateBookmarkPathsList cs ad path).1 n.id).isSome := by
  cases cs with
  | nil => simp at hn
  | cons c cs' =>
    rw [nodesOfList_cons, List.mem_append] at hn
    rw [calculateBookmarkPathsList_cons]
    rcases hn with hn | hn
    · exact calculateBookmarkPathsList_isSome_mono cs' _ _ n.id
        (calculateBookmarkPaths_leaf_isSome c ad path n hn hleaf)
    · exact calculateBookmarkPathsList_leaf_isSome cs' _ _ n hn hleaf
termination_by sizeOf cs
end

/-! ### Keys outside the walked tree's leaves are untouched -/

mutual
theorem calculateBookmarkPaths_lookup_notLeaf (t : BNode) (ad : AData) (path : List String)
    (i : String) (h : i ∉ leafIds t) :
    lookupAD (calculateBookmarkPaths t ad path).1 i = lookupAD ad i := by
  cases t with
  | node ni tt u ty children =>
    cases children with
    | none =>
        have hni : i ≠ ni := by
          simp [leafIds, isLeaf, BNode.children, BNode.id] at h
          exact h
        rw [calculateBookmarkPaths_leaf]
        exact lookupAD_setPath_other _ _ _ _ hni
    | some cs =>
        have hcs : i ∉ leafIdsList cs := by
          simpa [leafIds, leafIdsList, isLeaf, BNode.children] using h
        rw [calculateBookmarkPaths_branch]
        exact calculateBookmarkPathsList_lookup_notLeaf cs ad _ i hcs
termination_by sizeOf t

theorem calculateBookmarkPathsList_lookup_notLeaf (cs : List BNode) (ad : AData)
    (path : List String) (i : String) (h : i ∉ leafIdsList cs) :
    lookupAD (calculateBookmarkPathsList cs ad path).1 i = lookupAD ad i := by
  cases cs with
  | nil => rfl
  | cons c cs' =>
    have hcons : leafIdsList (c :: cs') = leafIds c ++ leafIdsList cs' := by
      simp [leafIdsList, leafIds, List.filter_append]
    rw [hcons, List.mem_append] at h
    push_neg at h
    have hsplit : i ∉ leafIds c ∧ i ∉ leafIdsList cs' := h
    rw [calculateBookmarkPathsList_cons,
      calculateBookmarkPathsList_lookup_notLeaf cs' _ _ i hsplit.2,
      calculateBookmarkPaths_lookup_notLeaf c ad path i hsplit.1]
termination_by sizeOf cs
end

/-! ### Unfolding and counting lemmas for `collectBookmark` -/

theorem collectBookmark_found_leaf (ad : AData) (i t u : String) (ty : BMType)
    (acc : List FlatBookmark) (p : List String)
    (hty : ty = BMType.bookmark) (hp : lookupAD ad i = some p) :
    collectBookmark ad (.node i t u ty none) acc = some (acc ++ [⟨i, t, u, p⟩]) := by
  subst hty
  simp only [collectBookmark]
  simp [hp]

theorem collectBookmark_found_branch (ad : AData) (i t u : String) (ty : BMType)
    (cs : List BNode) (acc : List FlatBookmark) (p : List String)
    (hty : ty = BMType.bookmark) (hp : lookupAD ad i = some p) :
    collectBookmark ad (.node i t u ty (some cs)) acc =
      collectBookmarkList ad cs (acc ++ [⟨i, t, u, p⟩]) := by
  subst hty
  simp only [collectBookmark]
  simp [hp]

theorem collectBookmark_missing (ad : AData) (i t u : String) (ty : BMType)
    (children : Option (List BNode)) (acc : List FlatBookmark)
    (hty : ty = BMType.bookmark) (hp : lookupAD ad i = none) :
    collectBookmark ad (.node i t u ty children) acc = none := by
  subst hty
  cases children <;>
    · simp only [collectBookmark]
      simp [hp]

theorem collectBookmark_skip_leaf (ad : AData) (i t u : String) (ty : BMType)
    (acc : List FlatBookmark) (hty : ty ≠ BMType.bookmark) :
    collectBookmark ad (.node i t u ty none) acc = some acc := by
  simp only [collectBookmark]
  simp [hty]

theorem collectBookmark_skip_branch (ad : AData) (i t u : String) (ty : BMType)
    (cs : List BNode) (acc : List FlatBookmark) (hty : ty ≠ BMType.bookmark) :
    collectBookmark ad (.node i t u ty (some cs)) acc =
      collectBookmarkList ad cs acc := by
  simp only [collectBookmark]
  simp [hty]

@[simp] theorem collectBookmarkList_nil (ad : AData) (acc : List FlatBookmark) :
    collectBookmarkList ad [] acc = some acc := rfl

theorem collectBookmarkList_cons (ad : AData) (c : BNode) (cs : List BNode)
    (acc : List FlatBookmark) :
    collectBookmarkList ad (c :: cs) acc =
      (match collectBookmark ad c acc with
       | none => none
       | some acc1 => collectBookmarkList ad cs acc1) := rfl

@[simp] theorem countBookmarks_none (i t u : String) (ty : BMType) :
    countBookmarks (.node i t u ty none) = if ty = BMType.bookmark then 1 else 0 := by
  simp only [countBookmarks, nodesOf_none, List.filter_cons, List.filter_nil, BNode.ty]
  split <;> simp_all

@[simp] theorem countBookmarks_some (i t u : String) (ty : BMType) (cs : List BNode) :
    countBookmarks (.node i t u ty (some cs)) =
      (if ty = BMType.bookmark then 1 else 0) + countBookmarksList cs := by
  simp only [countBookmarks, countBookmarksList, nodesOf_some, List.filter_cons, BNode.ty]
  split <;> simp_all [Nat.add_comm]

@[simp] theorem countBookmarksList_nil : countBookmarksList [] = 0 := rfl

@[simp] theorem countBookmarksList_cons (c : BNode) (cs : List BNode) :
    countBookmarksList (c :: cs) = countBookmarks c + countBookmarksList cs := by
  simp [countBookmarksList, countBookmarks, List.filter_append]

/-! ### `collectBookmark` succeeds and counts bookmark nodes when every
bookmark node has a map entry -/

mutual
theorem collectBookmark_count (ad : AData) (t : BNode) (acc : List FlatBookmark)
    (h : ∀ n ∈ nodesOf t, n.ty = BMType.bookmark → (lookupAD ad n.id).isSome) :
    ∃ l, collectBookmark ad t acc = some l ∧
      l.length = acc.length + countBookmarks t := by
  cases t with
  | node i tt u ty children =>
    by_cases hty : ty = BMType.bookmark
    · have hs : (lookupAD ad i).isSome := by
        have := h (.node i tt u ty children) (by cases children <;> simp) hty
        simpa [BNode.id] using this
      obtain ⟨p, hp⟩ := Option.isSome_iff_exists.mp hs
      cases children with
      | none =>
          refine ⟨acc ++ [⟨i, tt, u, p⟩], ?_, ?_⟩
          · exact collectBookmark_found_leaf ad i tt u ty acc p hty hp
          · simp [hty]
      | some cs =>
          have hcs : ∀ n ∈ nodesOfList cs, n.ty = BMType.bookmark →
              (lookupAD ad n.id).isSome := fun n hn => h n (by simp [hn])
          obtain ⟨l, hl, hlen⟩ :=
            collectBookmarkList_count ad cs (acc ++ [⟨i, tt, u, p⟩]) hcs
          refine ⟨l, ?_, ?_⟩
          · rw [collectBookmark_found_branch ad i tt u ty cs acc p hty hp]
            exact hl
          · simp only [hlen, List.length_append, List.length_cons, List.length_nil]
            simp [hty]
            omega
    · cases children with
      | none =>
          refine ⟨acc, ?_, ?_⟩
          · exact collectBookmark_skip_leaf ad i tt u ty acc hty
          · simp [hty]
      | some cs =>
          have hcs : ∀ n ∈ nodesOfList cs, n.ty = BMType.bookmark →
              (lookupAD ad n.id).isSome := fun n hn => h n (by simp [hn])
          obtain ⟨l, hl, hlen⟩ := collectBookmarkList_count ad cs acc hcs
          refine ⟨l, ?_, ?_⟩
          · rw [collectBookmark_skip_branch ad i tt u ty cs acc hty]
            exact hl
          · simp [hlen, hty]
termination_by sizeOf t

theorem collectBookmarkList_count (ad : AData) (cs : List BNode) (acc : List FlatBookmark)
    (h : ∀ n ∈ nodesOfList cs, n.ty = BMType.bookmark → (lookupAD ad n.id).isSome) :
    ∃ l, collectBookmarkList ad cs acc = some l ∧
      l.length = acc.length + countBookmarksList cs := by
  cases cs with
  | nil => exact ⟨acc, rfl, by simp⟩
  | cons c cs' =>
    have hc : ∀ n ∈ nodesOf c, n.ty = BMType.bookmark → (lookupAD ad n.id).isSome :=
      fun n hn => h n (by simp [hn])
    have hcs' : ∀ n ∈ nodesOfList cs', n.ty = BMType.bookmark →
        (lookupAD ad n.id).isSome := fun n hn => h n (by simp [hn])
    obtain ⟨l1, hl1, hlen1⟩ := collectBookmark_count ad c acc hc
    obtain ⟨l2, hl2, hlen2⟩ := collectBookmarkList_count ad cs' l1 hcs'
    refine ⟨l2, ?_, ?_⟩
    · rw [collectBookmarkList_cons, hl1]
      exact hl2
    · rw [hlen2, hlen1, countBookmarksList_cons]
      omega
termination_by sizeOf cs
end

/-! ### Provenance of the records `collectBookmark` pushes -/

mutual
theorem collectBookmark_mem (ad : AData) (t : BNode) (acc l : List FlatBookmark)
    (h : collectBookmark ad t acc = some l) :
    ∀ fb ∈ l, fb ∈ acc ∨ ∃ n ∈ nodesOf t, n.ty = BMType.bookmark ∧
      fb.id = n.id ∧ fb.title = n.title ∧ fb.url = n.url ∧
      lookupAD ad n.id = some fb.path := by
  cases t with
  | node i tt u ty children =>
    by_cases hty : ty = BMType.bookmark
    · cases hp : lookupAD ad i with
      | none =>
          rw [collectBookmark_missing ad i tt u ty children acc hty hp] at h
          exact absurd h (by simp)
      | some p =>
          cases children with
          | none =>
              rw [collectBookmark_found_leaf ad i tt u ty acc p hty hp] at h
              intro fb hfb
              rw [← Option.some_inj.mp h, List.mem_append] at hfb
              rcases hfb with hfb | hfb
              · exact Or.inl hfb
              · refine Or.inr ⟨.node i tt u ty none, by simp, hty, ?_⟩
                simp only [List.mem_singleton] at hfb
                subst hfb
                simp [BNode.id, BNode.title, BNode.url, hp]
          | some cs =>
              rw [collectBookmark_found_branch ad i tt u ty cs acc p hty hp] at h
              intro fb hfb
              rcases collectBookmarkList_mem ad cs _ l h fb hfb with hfb2 | hfb2
              · rw [List.mem_append] at hfb2
                rcases hfb2 with hfb2 | hfb2
                · exact Or.inl hfb2
                · refine Or.inr ⟨.node i tt u ty (some cs), by simp, hty, ?_⟩
                  simp only [List.mem_singleton] at hfb2
                  subst hfb2
                  simp [BNode.id, BNode.title, BNode.url, hp]
              · obtain ⟨n, hn, hrest⟩ := hfb2
                exact Or.inr ⟨n, by simp [hn], hrest⟩
    · cases children with
      | none =>
          rw [collectBookmark_skip_leaf ad i tt u ty acc hty] at h
          intro fb hfb
          exact Or.inl (Option.some_inj.mp h ▸ hfb)
      | some cs =>
          rw [collectBookmark_skip_branch ad i tt u ty cs acc hty] at h
          intro fb hfb
          rcases collectBookmarkList_mem ad cs _ l h fb hfb with hfb2 | hfb2
          · exact Or.inl hfb2
          · obtain ⟨n, hn, hrest⟩ := hfb2
            exact Or.inr ⟨n, by simp [hn], hrest⟩
termination_by sizeOf t

theorem collectBookmarkList_mem (ad : AData) (cs : List BNode) (acc l : List FlatBookmark)
    (h : collectBookmarkList ad cs acc = some l) :
    ∀ fb ∈ l, fb ∈ acc ∨ ∃ n ∈ nodesOfList cs, n.ty = BMType.bookmark ∧
      fb.id = n.id ∧ fb.title = n.title ∧ fb.url = n.url ∧
      lookupAD ad n.id = some fb.path := by
  cases cs with
  | nil =>
      intro fb hfb
      exact Or.inl (Option.some_inj.mp (by simpa using h) ▸ hfb)
  | cons c cs' =>
    rw [collectBookmarkList_cons] at h
    cases hc : collectBookmark ad c acc with
    | none => rw [hc] at h; exact absurd h (by simp)
    | some acc1 =>
        rw [hc] at h
        intro fb hfb
        rcases collectBookmarkList_mem ad cs' acc1 l h fb hfb with hfb2 | hfb2
        · rcases collectBookmark_mem ad c acc acc1 hc fb hfb2 with hfb3 | hfb3
          · exact Or.inl hfb3
          · obtain ⟨n, hn, hrest⟩ := hfb3
            exact Or.inr ⟨n, by simp [hn], hrest⟩
        · obtain ⟨n, hn, hrest⟩ := hfb2
          exact Or.inr ⟨n, by simp [hn], hrest⟩
termination_by sizeOf cs
end

/-- Reading the components of a successful `collectAllBookmarks` run. -/
theorem collectAllBookmarks_some_parts (s : KState) (root : BNode) (r : KState)
    (h : collectAllBookmarks s root = some r) :
    r.additionalData = (calculateBookmarkPaths root s.additionalData []).1 ∧
    r.currentBookmark = s.currentBookmark ∧
    collectBookmark (calculateBookmarkPaths root s.additionalData []).1 root []
      = some r.collectedBookmarks := by
  unfold collectAllBookmarks at h
  revert h
  cases hcb : collectBookmark (calculateBookmarkPaths root s.additionalData []).1 root [] with
  | none => intro h; exact absurd h (by simp)
  | some l =>
      intro h
      have hr := Option.some_inj.mp h
      rw [← hr]
      exact ⟨rfl, rfl, rfl⟩

/-- If every draw in the list is rejected, the pick loop is still
running when the draws run out. -/
theorem pickLoop_all_rejected (c : Nat) (draws : List Nat)
    (h : ∀ d ∈ draws, d = c) : pickLoop (some c) draws = none := by
  induction draws with
  | nil => rfl
  | cons d ds ih =>
      have hd : d = c := h d (by simp)
      subst hd
      simp only [pickLoop, if_pos rfl]
      exact ih (fun e he => h e (by simp [he]))

/-! ### Concrete scenario data -/

/-- A concrete flat bookmark record with id "1". -/
def fbA : FlatBookmark := ⟨"1", "A", "u1", []⟩

/-- A concrete flat bookmark record with id "2". -/
def fbB : FlatBookmark := ⟨"2", "B", "u2", []⟩

/-- A concrete flat bookmark record with id "3". -/
def fbC : FlatBookmark := ⟨"3", "C", "u3", []⟩

/-- A three-entry state whose previous presentation was index 2
(the entry with id "3"). -/
def sC2 : KState :=
  { collectedBookmarks := [fbA, fbB, fbC],
    additionalData := [("1", []), ("2", []), ("3", [])],
    currentBookmark := some 2 }

/-- A tree with an untitled root folder and one titled leaf bookmark. -/
def treeOne : BNode :=
  .node "r" "" "" .folder (some [.node "a" "Site" "u" .bookmark none])

/-! ### Claim C1 -/

/-- Claim C1 (code bug): the spec says that removing an identifier that
matches no entry is a silent no-op leaving the list unchanged.  In the
code `getIndexById` returns `-1` for an absent id and
`splice(-1, 1)` deletes the LAST array element: removing the absent id
"9" from the two-entry list `[fbA, fbB]` deletes `fbB`, shrinking the
list to `[fbA]` instead of leaving it unchanged. -/
theorem C1_removeById_absent_removes_last :
    (removeFromCollectedBookmarks
      { collectedBookmarks := [fbA, fbB],
        additionalData := [("1", []), ("2", [])],
        currentBookmark := none } "9").collectedBookmarks = [fbA] := by decide

/-! ### Claim C2 -/

/-- Claim C2 (code bug): the spec (and the code's own doc comment,
"makes sure that the same bookmark is never displayed twice in a row")
promise no immediate repetition while at least 2 entries remain.  The
loop only avoids the previous *index*: starting from `sC2` (previous
presentation index 2, which holds id "3"), removing id "1" shifts id
"3" to index 1; the feasible draw 1 is then accepted and id "3" is
presented twice in a row although 2 entries remain. -/
theorem C2_pick_repeats_after_removal :
    (sC2.collectedBookmarks[2]?).map FlatBookmark.id = some "3" ∧
    (removeFromCollectedBookmarks sC2 "1").collectedBookmarks.length = 2 ∧
    validDraw 2 1 ∧
    (showNextBookmark (removeFromCollectedBookmarks sC2 "1") [1]).map
      (fun p => p.2.map FlatBookmark.id) = some (some "3") := by decide

/-! ### Claim C3 -/

/-- Claim C3 (code bug): the spec requires `pickNext` on a one-entry
list to return that entry, whatever the selection state.  When the
current index is 0 (the single entry was just presented), every
feasible draw `Math.floor(Math.random() * 1)` equals 0 and is rejected
by the `while (nextBookmark === kodb.currentBookmark)` test, so the
loop never exits: no finite sequence of feasible draws makes the call
return. -/
theorem C3_single_entry_pick_never_returns (s : KState)
    (hs1 : s.collectedBookmarks.length = 1) (hs2 : s.currentBookmark = some 0)
    (draws : List Nat) (h : ∀ d ∈ draws, validDraw s.collectedBookmarks.length d) :
    showNextBookmark s draws = none := by
  have hz : ∀ d ∈ draws, d = 0 := by
    intro d hd
    have := h d hd
    rw [hs1] at this
    unfold validDraw at this
    omega
  unfold showNextBookmark
  rw [hs2, pickLoop_all_rejected 0 draws hz]

/-- Witness for C3: the hypotheses are satisfiable, e.g. by the draw
sequence `[0, 0]` against a concrete one-entry state. -/
theorem C3_single_entry_pick_never_returns_witness :
    (({ collectedBookmarks := [fbA], additionalData := [],
        currentBookmark := some 0 } : KState).collectedBookmarks.length = 1 ∧
      (∀ d ∈ [0, 0], validDraw 1 d)) ∧
    showNextBookmark
      { collectedBookmarks := [fbA], additionalData := [],
        currentBookmark := some 0 } [0, 0] = none :=
  ⟨⟨rfl, by decide⟩, C3_single_entry_pick_never_returns
    { collectedBookmarks := [fbA], additionalData := [],
      currentBookmark := some 0 } rfl rfl [0, 0] (by decide)⟩

/-! ### Claim C5 -/

/-- Claim C5 counterexample: called on the empty list (fresh state, no
previous presentation), the code does not fail with any error: the
only feasible draw 0 is accepted, the current index becomes 0, and a
presentation message is delivered whose bookmark payload is undefined
(`collectedBookmarks[0]` of an empty array), contradicting "it does
not deliver a presentation". -/
theorem C5_empty_pick_delivers_counterexample :
    validDraw 0 0 ∧
    showNextBookmark initState [0] =
      some ({ initState with currentBookmark := some 0 }, none) := by decide

/-- Claim C5 as amended: on an empty list with no previous
presentation, `showNextBookmark` does not fail with
`EmptyCollectionError` (no such check exists); it accepts the first
draw (necessarily 0, since `Math.random() * 0 = 0`), sets the current
index to 0 and delivers a presentation whose bookmark payload is
undefined. -/
theorem C5_empty_pick_no_error (s : KState) (d : Nat) (ds : List Nat)
    (hl : s.collectedBookmarks = []) (hc : s.currentBookmark = none)
    (hd : validDraw 0 d) :
    showNextBookmark s (d :: ds) =
      some ({ s with currentBookmark := some 0 }, none) := by
  have hd0 : d = 0 := by unfold validDraw at hd; omega
  subst hd0
  unfold showNextBookmark
  rw [hc]
  simp [pickLoop, hl]

/-- Witness for C5: the amended statement applies to the fresh empty
state with the single feasible draw 0. -/
theorem C5_empty_pick_no_error_witness :
    (initState.collectedBookmarks = [] ∧ initState.currentBookmark = none ∧
      validDraw 0 0) ∧
    showNextBookmark initState [0] =
      some ({ initState with currentBookmark := some 0 }, none) :=
  ⟨⟨rfl, rfl, by decide⟩, C5_empty_pick_no_error initState 0 [] rfl rfl (by decide)⟩

/-! ### Claim C6 -/

/-- Claim C6 counterexample: `collectAllBookmarks` does not reset the
selection state.  Running it from a state whose previous presentation
index is 0 yields a state whose `currentBookmark` is still `some 0`,
not "none": the first subsequent pick still has a previous index to
avoid. -/
theorem C6_collectAll_keeps_previous :
    (collectAllBookmarks
      { collectedBookmarks := [], additionalData := [],
        currentBookmark := some 0 } treeOne).map KState.currentBookmark
      = some (some 0) := by decide

/-- Claim C6 as amended: a successful `collectAllBookmarks` run leaves
the selection state exactly as it was (it never touches
`currentBookmark`), so the first subsequent pick avoids the stale
previous index instead of having none to avoid. -/
theorem C6_collectAll_preserves_current (s : KState) (root : BNode) (r : KState)
    (h : collectAllBookmarks s root = some r) :
    r.currentBookmark = s.currentBookmark :=
  (collectAllBookmarks_some_parts s root r h).2.1

/-- Witness for C6: a concrete successful run from a state with
previous index 5 keeps `currentBookmark = some 5`. -/
theorem C6_collectAll_preserves_current_witness :
    collectAllBookmarks
      { collectedBookmarks := [], additionalData := [],
        currentBookmark := some 5 } treeOne =
      some { collectedBookmarks := [⟨"a", "Site", "u", []⟩],
             additionalData := [("a", [])], currentBookmark := some 5 } ∧
    ({ collectedBookmarks := [⟨"a", "Site", "u", []⟩],
       additionalData := [("a", [])], currentBookmark := some 5 } : KState).currentBookmark
      = ({ collectedBookmarks := [], additionalData := [],
           currentBookmark := some 5 } : KState).currentBookmark :=
  ⟨by decide, C6_collectAll_preserves_current _ treeOne _ (by decide)⟩

/-! ### Claim C7 -/

/-- A first-pass tree containing the leaf bookmark id "old". -/
def treeOld : BNode :=
  .node "r" "" "" .folder (some [.node "old" "X" "u" .bookmark none])

/-- A second-pass tree that no longer contains the id "old". -/
def treeNew : BNode :=
  .node "r" "" "" .folder (some [.node "new" "Y" "u" .bookmark none])

/-- Claim C7 counterexample: the path index is NOT rebuilt fresh.
After collecting `treeOld` and then `treeNew`, the entry for "old"
(an id absent from `treeNew`) still resolves to its old path, so the
index does not contain entries exactly for the leaves of the tree just
collected. -/
theorem C7_stale_entry_survives :
    ((collectAllBookmarks initState treeOld).bind
      (fun s => collectAllBookmarks s treeNew)).map
        (fun s => lookupAD s.additionalData "old") = some (some []) ∧
    "old" ∉ nodeIds treeNew := by decide

/-- Claim C7 as amended: after a successful `collectAllBookmarks` run
the path index has an entry for every leaf of the tree just collected,
but it is updated in place rather than rebuilt: entries whose key is
not a leaf id of that tree (in particular entries from earlier passes
for ids absent from the new tree) are preserved unchanged. -/
theorem C7_pathIndex_updated_in_place (s : KState) (root : BNode) (r : KState)
    (h : collectAllBookmarks s root = some r) :
    (∀ n ∈ nodesOf root, isLeaf n = true → (lookupAD r.additionalData n.id).isSome) ∧
    (∀ i, i ∉ leafIds root →
      lookupAD r.additionalData i = lookupAD s.additionalData i) := by
  obtain ⟨had, -, -⟩ := collectAllBookmarks_some_parts s root r h
  constructor
  · intro n hn hleaf
    rw [had]
    exact calculateBookmarkPaths_leaf_isSome root s.additionalData [] n hn hleaf
  · intro i hi
    rw [had]
    exact calculateBookmarkPaths_lookup_notLeaf root s.additionalData [] i hi

/-- A state carrying a stale path-index entry for the id "zzz". -/
def sStale : KState :=
  { collectedBookmarks := [], additionalData := [("zzz", ["Old"])],
    currentBookmark := none }

/-- The result of collecting `treeOne` from `sStale`. -/
def rStale : KState :=
  { collectedBookmarks := [⟨"a", "Site", "u", []⟩],
    additionalData := [("zzz", ["Old"]), ("a", [])],
    currentBookmark := none }

/-- Witness for C7: on a concrete run the new leaf "a" has an entry and
the stale entry "zzz" is preserved verbatim. -/
theorem C7_pathIndex_updated_in_place_witness :
    collectAllBookmarks sStale treeOne = some rStale ∧
    (lookupAD rStale.additionalData "a").isSome = true ∧
    lookupAD rStale.additionalData "zzz" = lookupAD sStale.additionalData "zzz" :=
  ⟨by decide,
   (C7_pathIndex_updated_in_place sStale treeOne rStale (by decide)).1
     (.node "a" "Site" "u" .bookmark none)
     (by rw [show nodesOf treeOne
           = [treeOne, .node "a" "Site" "u" .bookmark none] from rfl]; simp)
     rfl,
   (C7_pathIndex_updated_in_place sStale treeOne rStale (by decide)).2 "zzz"
     (by decide)⟩

/-! ### Claim C8 -/

/-- A tree with a non-leaf node of type `"bookmark"` (id "p") above a
leaf bookmark (id "a"). -/
def treeNested : BNode :=
  .node "r" "" "" .folder
    (some [.node "p" "P" "up" .bookmark
      (some [.node "a" "A" "ua" .bookmark none])])

/-- Claim C8 counterexample: `treeNested` has exactly 1 leaf node of
type bookmark (and no non-bookmark leaves), yet `collectAllBookmarks`
does not produce a 1-entry list: the non-leaf bookmark node "p" has no
path-index entry (only childless nodes get one), so
`collectBookmark` dereferences `undefined` and the run aborts. -/
theorem C8_nonleaf_bookmark_aborts :
    countLeafBookmarks treeNested = 1 ∧
    collectAllBookmarks initState treeNested = none := by decide

/-- Claim C8 as amended: for every tree in which every node of type
`"bookmark"` has no children property, `collectAllBookmarks` succeeds
and produces exactly N `FlatBookmark` entries, where N is the number
of leaf nodes of type `"bookmark"` (non-bookmark leaves contribute
nothing). -/
theorem C8_collectAll_count (s : KState) (root : BNode)
    (h : ∀ n ∈ nodesOf root, n.ty = BMType.bookmark → isLeaf n = true) :
    (collectAllBookmarks s root).map (fun r => r.collectedBookmarks.length)
      = some (countLeafBookmarks root) := by
  have hlk : ∀ n ∈ nodesOf root, n.ty = BMType.bookmark →
      (lookupAD (calculateBookmarkPaths root s.additionalData []).1 n.id).isSome := by
    intro n hn hb
    exact calculateBookmarkPaths_leaf_isSome root s.additionalData [] n hn (h n hn hb)
  obtain ⟨l, hl, hlen⟩ :=
    collectBookmark_count (calculateBookmarkPaths root s.additionalData []).1 root [] hlk
  have hcount : countLeafBookmarks root = countBookmarks root := by
    unfold countLeafBookmarks countBookmarks
    congr 1
    apply List.filter_congr
    intro n hn
    by_cases hb : n.ty = BMType.bookmark
    · simp [hb, h n hn hb]
    · simp [hb]
  unfold collectAllBookmarks
  rw [hl]
  simp [hlen, hcount]

/-- Witness for C8: on `treeOne` (all bookmark nodes childless) the
count is exactly the single leaf bookmark. -/
theorem C8_collectAll_count_witness :
    (∀ n ∈ nodesOf treeOne, n.ty = BMType.bookmark → isLeaf n = true) ∧
    (collectAllBookmarks initState treeOne).map
      (fun r => r.collectedBookmarks.length) = some (countLeafBookmarks treeOne) :=
  ⟨by decide, C8_collectAll_count initState treeOne (by decide)⟩

/-! ### Claim C9 -/

/-- Claim C9 (confirmed): when every node of type `"bookmark"` has no
children, every such node is a leaf, so `calculateBookmarkPaths`
records a path-index entry for it; every `additionalData[id].path`
read performed by `collectBookmark` therefore finds an entry and the
undefined-dereference branch (the only failure source, modelled as
`none`) is unreachable: the collection pass succeeds. -/
theorem C9_no_missing_lookup (s : KState) (root : BNode)
    (h : ∀ n ∈ nodesOf root, n.ty = BMType.bookmark → isLeaf n = true) :
    (collectAllBookmarks s root).isSome := by
  have hlk : ∀ n ∈ nodesOf root, n.ty = BMType.bookmark →
      (lookupAD (calculateBookmarkPaths root s.additionalData []).1 n.id).isSome := by
    intro n hn hb
    exact calculateBookmarkPaths_leaf_isSome root s.additionalData [] n hn (h n hn hb)
  obtain ⟨l, hl, -⟩ :=
    collectBookmark_count (calculateBookmarkPaths root s.additionalData []).1 root [] hlk
  unfold collectAllBookmarks
  rw [hl]
  rfl

/-- Witness for C9: the precondition holds for `treeOne` and the pass
succeeds on it. -/
theorem C9_no_missing_lookup_witness :
    (∀ n ∈ nodesOf treeOne, n.ty = BMType.bookmark → isLeaf n = true) ∧
    (collectAllBookmarks initState treeOne).isSome = true :=
  ⟨by decide, C9_no_missing_lookup initState treeOne (by decide)⟩

/-! ### Claim C10 -/

theorem findIdx_found (l : List FlatBookmark) (i : String)
    (h : ∃ b ∈ l, b.id = i) :
    ∃ n : Nat, l.findIdx? (fun b => b.id = i) = some n := by
  induction l with
  | nil => simp at h
  | cons x xs ih =>
    by_cases hx : x.id = i
    · exact ⟨0, by rw [List.findIdx?_cons]; simp [hx]⟩
    · obtain ⟨b, hb, hbi⟩ := h
      have hbxs : b ∈ xs := by
        rcases List.mem_cons.mp hb with rfl | hh
        · exact absurd hbi hx
        · exact hh
      obtain ⟨n, hn⟩ := ih ⟨b, hbxs, hbi⟩
      exact ⟨n + 1, by rw [List.findIdx?_cons]; simp [hx, hn]⟩

/-- When the id occurs in the list, `splice(findIndex(id), 1)` removes
exactly the first entry carrying that id and keeps everything else in
order. -/
theorem spliceOne_getIndexById_found (l : List FlatBookmark) (i : String)
    (h : ∃ b ∈ l, b.id = i) :
    ∃ l1 b l2, l = l1 ++ b :: l2 ∧ b.id = i ∧ (∀ x ∈ l1, x.id ≠ i) ∧
      spliceOne l (getIndexById l i) = l1 ++ l2 := by
  induction l with
  | nil => simp at h
  | cons x xs ih =>
    by_cases hx : x.id = i
    · refine ⟨[], x, xs, by simp, hx, by simp, ?_⟩
      have hg : getIndexById (x :: xs) i = 0 := by
        unfold getIndexById
        rw [List.findIdx?_cons]
        simp [hx]
      rw [hg]
      simp [spliceOne]
    · obtain ⟨b, hb, hbi⟩ := h
      have hbxs : b ∈ xs := by
        rcases List.mem_cons.mp hb with rfl | hh
        · exact absurd hbi hx
        · exact hh
      obtain ⟨l1, b', l2, heq, hbi', hl1, hsplice⟩ := ih ⟨b, hbxs, hbi⟩
      obtain ⟨n, hn⟩ := findIdx_found xs i ⟨b, hbxs, hbi⟩
      have hgx : getIndexById (x :: xs) i = (n : Int) + 1 := by
        unfold getIndexById
        rw [List.findIdx?_cons]
        simp [hx, hn]
      have hgxs : getIndexById xs i = (n : Int) := by
        unfold getIndexById
        rw [hn]
      refine ⟨x :: l1, b', l2, by simp [heq], hbi', ?_, ?_⟩
      · intro y hy
        rcases List.mem_cons.mp hy with rfl | hy2
        · exact hx
        · exact hl1 y hy2
      · rw [hgxs] at hsplice
        rw [hgx]
        have hshift : spliceOne (x :: xs) ((n : Int) + 1) = x :: spliceOne xs (n : Int) := by
          unfold spliceOne
          have h1 : ¬((n : Int) + 1 < 0) := by omega
          have h2 : ¬((n : Int) < 0) := by omega
          rw [if_neg h1, if_neg h2]
          have h3 : ((n : Int) + 1).toNat = n + 1 := by omega
          have h4 : ((n : Int)).toNat = n := by omega
          simp only [h3, h4, List.take_succ_cons, List.drop_succ_cons]
          simp
        rw [hshift, hsplice]
        simp

/-- Claim C10 (confirmed): removing a present identifier removes
exactly the (first) list entry with that id, keeping every other
entry, their order and their recorded paths; it deletes exactly that
id's path-index entry (all other keys resolve as before); and it does
not touch the selection state. -/
theorem C10_remove_present_frame (s : KState) (i : String)
    (h : ∃ b ∈ s.collectedBookmarks, b.id = i) :
    ∃ l1 b l2, s.collectedBookmarks = l1 ++ b :: l2 ∧ b.id = i ∧
      (∀ x ∈ l1, x.id ≠ i) ∧
      (removeFromCollectedBookmarks s i).collectedBookmarks = l1 ++ l2 ∧
      (removeFromCollectedBookmarks s i).currentBookmark = s.currentBookmark ∧
      lookupAD (removeFromCollectedBookmarks s i).additionalData i = none ∧
      ∀ j, j ≠ i → lookupAD (removeFromCollectedBookmarks s i).additionalData j
        = lookupAD s.additionalData j := by
  obtain ⟨l1, b, l2, heq, hbi, hl1, hsplice⟩ :=
    spliceOne_getIndexById_found s.collectedBookmarks i h
  exact ⟨l1, b, l2, heq, hbi, hl1, hsplice, rfl,
    lookupAD_eraseAD_self s.additionalData i,
    fun j hj => lookupAD_eraseAD_other s.additionalData i j hj⟩

/-- A two-entry state with paths and a previous presentation, used to
witness C10. -/
def sC10 : KState :=
  { collectedBookmarks := [fbA, fbB],
    additionalData := [("1", ["P"]), ("2", ["Q"])],
    currentBookmark := some 1 }

/-- Witness for C10: removing the present id "1" from `sC10`. -/
theorem C10_remove_present_frame_witness :
    (∃ b ∈ sC10.collectedBookmarks, b.id = "1") ∧
    (∃ l1 b l2, sC10.collectedBookmarks = l1 ++ b :: l2 ∧ b.id = "1" ∧
      (∀ x ∈ l1, x.id ≠ "1") ∧
      (removeFromCollectedBookmarks sC10 "1").collectedBookmarks = l1 ++ l2 ∧
      (removeFromCollectedBookmarks sC10 "1").currentBookmark = sC10.currentBookmark ∧
      lookupAD (removeFromCollectedBookmarks sC10 "1").additionalData "1" = none ∧
      ∀ j, j ≠ "1" → lookupAD (removeFromCollectedBookmarks sC10 "1").additionalData j
        = lookupAD sC10.additionalData j) :=
  ⟨by decide, C10_remove_present_frame sC10 "1" (by decide)⟩

/-! ### Claim C4 -/

/-- A tree whose leaf bookmark "a" has no title, under the titled
folder "Work". -/
def treeUntitledLeaf : BNode :=
  .node "r" "" "" .folder
    (some [.node "f" "Work" "" .folder
      (some [.node "a" "" "u" .bookmark none])])

/-- Claim C4 counterexample: the strict ancestors of the leaf bookmark
"a" (excluding the root) are titled `["Work"]`, but the code records
and emits the path `[]`: the untitled leaf pushes nothing onto the
accumulator, yet `slice(0, -1)` still strips the last element, so the
parent title "Work" is dropped.  The claim fails exactly in the
"some nodes have no title" case it insists on covering. -/
theorem C4_untitled_leaf_wrong_path :
    (collectAllBookmarks initState treeUntitledLeaf).map
      (fun r => r.collectedBookmarks.map (fun fb => (fb.id, fb.path)))
      = some [("a", [])] ∧
    specAncestorPaths treeUntitledLeaf = [("a", ["Work"])] := by decide

/-- Claim C4 as amended: on a collection pass with a fresh path index
over a tree whose root title is empty (as the host's bookmark root is),
whose non-root nodes all have nonempty titles, and whose node ids are
pairwise distinct (the data model's uniqueness invariant), every
produced `FlatBookmark` has `path` equal to the ordered titles of its
strict ancestors excluding the root. -/
theorem C4_paths_match_ancestors (s : KState) (root : BNode) (r : KState)
    (had0 : s.additionalData = [])
    (hroot : root.title = "")
    (htitled : ∀ n ∈ descendants root, n.title ≠ "")
    (hnodup : (nodeIds root).Nodup)
    (h : collectAllBookmarks s root = some r) :
    ∀ fb ∈ r.collectedBookmarks, (fb.id, fb.path) ∈ specAncestorPaths root := by
  obtain ⟨had, -, hcb⟩ := collectAllBookmarks_some_parts s root r h
  have hA : (calculateBookmarkPaths root s.additionalData []).1
      = specAncestorPaths root := by
    rw [had0, calculateBookmarkPaths_root root [] hroot htitled,
      setPaths_disjoint_append [] _
        (by rw [specAncestorPaths_keys]; exact leafIds_nodup root hnodup)
        (fun k _ => rfl)]
    simp
  rw [hA] at hcb
  intro fb hfb
  rcases collectBookmark_mem _ root [] _ hcb fb hfb with
    hin | ⟨n, hn, hbm, hid, hti, hu, hlook⟩
  · simp at hin
  · have hmem := lookupAD_mem _ _ _ hlook
    rwa [← hid] at hmem

/-- The tree of the spec's own example scenario: root → folder "Work" →
bookmark "Site1". -/
def treeSpec : BNode :=
  .node "r" "" "" .folder
    (some [.node "f" "Work" "" .folder
      (some [.node "a" "Site1" "u" .bookmark none])])

/-- The state produced by collecting `treeSpec` from the initial
state. -/
def rSpec : KState :=
  { collectedBookmarks := [⟨"a", "Site1", "u", ["Work"]⟩],
    additionalData := [("a", ["Work"])],
    currentBookmark := none }

/-- Witness for C4: the amended hypotheses hold for `treeSpec`, the run
produces `rSpec`, and its single record's `(id, path)` pair is a
specification ancestor path. -/
theorem C4_paths_match_ancestors_witness :
    (initState.additionalData = [] ∧ treeSpec.title = "" ∧
      (∀ n ∈ descendants treeSpec, n.title ≠ "") ∧ (nodeIds treeSpec).Nodup ∧
      collectAllBookmarks initState treeSpec = some rSpec ∧
      (⟨"a", "Site1", "u", ["Work"]⟩ : FlatBookmark) ∈ rSpec.collectedBookmarks) ∧
    ((⟨"a", "Site1", "u", ["Work"]⟩ : FlatBookmark).id,
      (⟨"a", "Site1", "u", ["Work"]⟩ : FlatBookmark).path) ∈ specAncestorPaths treeSpec :=
  ⟨⟨rfl, rfl, by decide, by decide, by decide, by decide⟩,
   C4_paths_match_ancestors initState treeSpec rSpec rfl rfl (by decide) (by decide)
     (by decide) ⟨"a", "Site1", "u", ["Work"]⟩ (by decide)⟩

end KODB
